import Mathlib

/-!
# Verification of the resizable-array engine (`src/array.c`)

Shallow embedding of the dynamic-array implementation of
`c-data-structures`.  Element handles (`void *`) are modelled as natural
numbers with `0` standing for `NULL`; the backing buffer is a `List Ptr`
whose length equals the capacity field (`calloc`/`realloc` keep them in
sync, captured by the well-formedness predicate `Wf`).  `malloc`-family
success is an explicit `Bool` oracle passed to every operation that may
allocate.  Calls to the registered delete capability (`del_f`) are
recorded in a `dels` log, so ownership-transfer claims are statements
about that log.  `size_t` multiplication is taken modulo `2^64` where the
C source can overflow.
-/

/-- An element handle (`void *`).  `0` models `NULL`. -/
abbrev Ptr := Nat

/-- `array_error_code_t` from `array.h`. -/
inductive ArrayErr where
  | ARRAY_SUCCESS
  | ARRAY_NOT_FOUND
  | ARRAY_OUT_OF_BOUNDS
  | ARRAY_INVALID_ARGUMENT
  | ARRAY_ALLOCATION_FAILURE
  deriving DecidableEq, Repr

export ArrayErr (ARRAY_SUCCESS ARRAY_NOT_FOUND ARRAY_OUT_OF_BOUNDS
  ARRAY_INVALID_ARGUMENT ARRAY_ALLOCATION_FAILURE)

/-- `#define ARRAY_MAX_SIZE 500` -/
def ARRAY_MAX_SIZE : Nat := 500

/-- `#define ARRAY_RESIZE_FACTOR 2` -/
def ARRAY_RESIZE_FACTOR : Nat := 2

/-- `#define ARRAY_SHRINK_THRESHOLD_DIVISOR 6` -/
def ARRAY_SHRINK_THRESHOLD_DIVISOR : Nat := 6

/-- `#define ARRAY_SHRINK_FACTOR 2` -/
def ARRAY_SHRINK_FACTOR : Nat := 2

/-- `#define ARRAY_MIN_CAPACITY 16` -/
def ARRAY_MIN_CAPACITY : Nat := 16

/-- `size_t` arithmetic is modulo `2^64`. -/
def SIZE_T_MOD : Nat := 2 ^ 64

/-- The `array_t` struct: backing buffer `pp_array` (one list entry per
allocated slot), logical length `len` and capacity `cap`.  The capability
function pointers are non-null for every array built by `array_create`
and are passed separately to the operations that use them. -/
structure ArrayC where
  buf : List Ptr
  len : Nat
  cap : Nat
  deriving DecidableEq, Repr

/-- Well-formedness tying the struct fields to the heap facts the C code
relies on: the allocated block really has `cap` slots. -/
def ArrayC.Wf (a : ArrayC) : Prop := a.buf.length = a.cap ∧ a.len ≤ a.cap

instance (a : ArrayC) : Decidable a.Wf := by unfold ArrayC.Wf; infer_instance

/-- Result of a mutating call: error code, the array afterwards, and the
log of handles passed to the delete capability during the call. -/
structure MutRes where
  err : ArrayErr
  arr : ArrayC
  dels : List Ptr
  deriving DecidableEq, Repr

/-- Result of `array_pop`: additionally the value written to `*p_out`
(`none` when the out-parameter is left untouched). -/
structure PopRes where
  err : ArrayErr
  arr : ArrayC
  out : Option Ptr
  dels : List Ptr
  deriving DecidableEq, Repr

/-- `array_create` (array.c:49-86).  Fails (returns `none`, i.e. `NULL`)
when `initial_capacity == 0`, when any capability pointer is `NULL`
(not representable here: callers of this model always pass functions), or
when either allocation fails (`allocOk` oracle).  `calloc` zero-fills the
buffer. -/
def array_create (initial_capacity : Nat) (allocOk : Bool) : Option ArrayC :=
  if 0 < initial_capacity ∧ allocOk then
    some { buf := List.replicate initial_capacity 0, len := 0,
           cap := initial_capacity }
  else
    none

/-- `array_is_full` (array.c:373-377). -/
def array_is_full (a : ArrayC) : Bool := a.len == a.cap

/-- `array_is_empty` (array.c:367-371). -/
def array_is_empty (a : ArrayC) : Bool := a.len == 0

/-- `array_del_ele` (array.c:118-125): invokes `del_f` only on a
non-`NULL` value; returns the delete log of the call. -/
def array_del_ele (p_value : Ptr) : List Ptr :=
  if p_value = 0 then [] else [p_value]

/-- `array_reserve` (array.c:514-548).  Rejects a non-growing or
over-maximum target, then `realloc`s (oracle `allocOk`) and zero-fills
the new slots `[cap, new_cap)`. -/
def array_reserve (a : ArrayC) (new_cap : Nat) (allocOk : Bool) :
    ArrayErr × ArrayC :=
  if new_cap ≤ a.cap ∨ ARRAY_MAX_SIZE < new_cap then
    (ARRAY_OUT_OF_BOUNDS, a)
  else if allocOk then
    (ARRAY_SUCCESS,
      { a with buf := a.buf ++ List.replicate (new_cap - a.cap) 0,
               cap := new_cap })
  else
    (ARRAY_ALLOCATION_FAILURE, a)

/-- `array_shrink_to_fit` (array.c:550-589).  No-op (success) unless
`len < cap / 6` and `cap > 16`; then the target is
`max (cap / 2) 16` and a failing `realloc` leaves the array unchanged
with `ARRAY_ALLOCATION_FAILURE`. -/
def array_shrink_to_fit (a : ArrayC) (allocOk : Bool) : ArrayErr × ArrayC :=
  if a.cap / ARRAY_SHRINK_THRESHOLD_DIVISOR ≤ a.len ∨
      a.cap ≤ ARRAY_MIN_CAPACITY then
    (ARRAY_SUCCESS, a)
  else
    let new_cap := max (a.cap / ARRAY_SHRINK_FACTOR) ARRAY_MIN_CAPACITY
    if allocOk then
      (ARRAY_SUCCESS, { a with buf := a.buf.take new_cap, cap := new_cap })
    else
      (ARRAY_ALLOCATION_FAILURE, a)

/-- Effect of the shift loop of `array_insert` (array.c:198-203) on the
buffer: slots `[0, index)` keep their values, slot `index` receives
`p_value`, slots `(index, len]` receive the old `[index, len)`, and slots
beyond `len + 1` are untouched. -/
def insertShiftBuf (buf : List Ptr) (index len : Nat) (p_value : Ptr) :
    List Ptr :=
  buf.take index ++ p_value :: (buf.drop index).take (len - index)
    ++ buf.drop (len + 1)

/-- `array_insert` (array.c:174-209).  `NULL` checks, bound check
(`index > len` fails), growth by `ARRAY_RESIZE_FACTOR` when full
(`size_t` product taken mod `2^64`), then shift and store. -/
def array_insert (a : ArrayC) (index : Nat) (p_value : Ptr)
    (allocOk : Bool) : MutRes :=
  if p_value = 0 then
    { err := ARRAY_INVALID_ARGUMENT, arr := a, dels := [] }
  else if a.len < index then
    { err := ARRAY_OUT_OF_BOUNDS, arr := a, dels := [] }
  else
    let grown :=
      if array_is_full a then
        array_reserve a (a.cap * ARRAY_RESIZE_FACTOR % SIZE_T_MOD) allocOk
      else (ARRAY_SUCCESS, a)
    if grown.1 = ARRAY_SUCCESS then
      { err := ARRAY_SUCCESS,
        arr := { grown.2 with
                   buf := insertShiftBuf grown.2.buf index grown.2.len p_value,
                   len := grown.2.len + 1 },
        dels := [] }
    else
      { err := grown.1, arr := grown.2, dels := [] }

/-- Effect of the shift loop of `array_remove` (array.c:226-232) on the
buffer: slots `[index, len-1)` receive the old `(index, len)`, slot
`len - 1` is nulled, the rest keep their values. -/
def removeShiftBuf (buf : List Ptr) (index len : Nat) : List Ptr :=
  buf.take index ++ (buf.drop (index + 1)).take (len - 1 - index)
    ++ 0 :: buf.drop len

/-- `array_remove` (array.c:211-238).  Deletes the occupant via the
delete capability, shifts left, nulls the vacated tail slot, then
evaluates the shrink policy, discarding its result (`(void)` cast). -/
def array_remove (a : ArrayC) (index : Nat) (allocOk : Bool) : MutRes :=
  if a.len ≤ index then
    { err := ARRAY_OUT_OF_BOUNDS, arr := a, dels := [] }
  else
    let victim := a.buf.getD index 0
    let shifted : ArrayC :=
      { a with buf := removeShiftBuf a.buf index a.len, len := a.len - 1 }
    let shrunk := array_shrink_to_fit shifted allocOk
    { err := ARRAY_SUCCESS, arr := shrunk.2, dels := array_del_ele victim }

/-- `array_push` (array.c:240-249): `NULL` checks, then delegates to
`array_insert` at index `len`. -/
def array_push (a : ArrayC) (p_value : Ptr) (allocOk : Bool) : MutRes :=
  if p_value = 0 then
    { err := ARRAY_INVALID_ARGUMENT, arr := a, dels := [] }
  else
    array_insert a a.len p_value allocOk

/-- `array_pop` (array.c:251-271).  Hands the tail element to the caller
through `*p_out`, nulls the slot, decrements the length, and returns
whatever `array_shrink_to_fit` returns. -/
def array_pop (a : ArrayC) (allocOk : Bool) : PopRes :=
  if a.len = 0 then
    { err := ARRAY_OUT_OF_BOUNDS, arr := a, out := none, dels := [] }
  else
    let last_index := a.len - 1
    let out := a.buf.getD last_index 0
    let cleared : ArrayC :=
      { a with buf := a.buf.set last_index 0, len := last_index }
    let shrunk := array_shrink_to_fit cleared allocOk
    { err := shrunk.1, arr := shrunk.2, out := some out, dels := [] }

/-- `array_get` (array.c:273-288): bound check then read; `none` models
an untouched `*p_out`. -/
def array_get (a : ArrayC) (index : Nat) : ArrayErr × Option Ptr :=
  if a.len ≤ index then
    (ARRAY_OUT_OF_BOUNDS, none)
  else
    (ARRAY_SUCCESS, some (a.buf.getD index 0))

/-- `array_set` (array.c:290-318).  `index > len` is out-of-bounds,
`index = len` delegates to `array_insert`, `index < len` deletes the old
occupant (when non-`NULL`) and stores the replacement in place. -/
def array_set (a : ArrayC) (index : Nat) (p_value : Ptr) (allocOk : Bool) :
    MutRes :=
  if p_value = 0 then
    { err := ARRAY_INVALID_ARGUMENT, arr := a, dels := [] }
  else if a.len < index then
    { err := ARRAY_OUT_OF_BOUNDS, arr := a, dels := [] }
  else if index = a.len then
    array_insert a index p_value allocOk
  else
    let old := a.buf.getD index 0
    { err := ARRAY_SUCCESS,
      arr := { a with buf := a.buf.set index p_value },
      dels := if old = 0 then [] else [old] }

/-- `array_is_equal` (array.c:379-424), both arguments non-`NULL`:
equal lengths and every corresponding pair compares to `0` under the
registered comparison capability. -/
def array_is_equal (cmp : Ptr → Ptr → Int) (a b : ArrayC) : Bool :=
  if a.len ≠ b.len then
    false
  else
    (List.range a.len).all fun idx =>
      cmp (a.buf.getD idx 0) (b.buf.getD idx 0) == 0

/-- Copy loop of `array_clone` (array.c:467-482): copies the first `len`
elements in order, stopping at the first failed copy (`cpy` returning
`NULL`).  On failure it returns (as `Except.error`) the copies made
before the failing position — these are what the cleanup loop deletes. -/
def cloneCopies (cpy : Ptr → Ptr) : List Ptr → Except (List Ptr) (List Ptr)
  | [] => Except.ok []
  | x :: xs =>
    let c := cpy x
    if c = 0 then Except.error []
    else
      match cloneCopies cpy xs with
      | Except.ok cs => Except.ok (c :: cs)
      | Except.error partialCopies => Except.error (c :: partialCopies)

/-- `array_clone` (array.c:442-489).  Creates a fresh array of the same
capacity (sharing the capability pointers), deep-copies the first `len`
slots via the copy capability, and on any failure releases every copy
made so far (reported in the delete log) and returns `NULL`.  The two
auxiliary allocations (`array_create` and the staging `calloc`) share the
`allocOk` oracle.  The source array is only read. -/
def array_clone (a : ArrayC) (cpy : Ptr → Ptr) (allocOk : Bool) :
    Option ArrayC × List Ptr :=
  if ¬ (0 < a.cap ∧ allocOk) then
    (none, [])
  else
    match cloneCopies cpy (a.buf.take a.len) with
    | Except.error partialCopies =>
        -- cleanup loop array.c:473-476 deletes the copies already made;
        -- `array_destroy` of the still-empty clone deletes nothing
        (none, partialCopies)
    | Except.ok copies =>
        (some { buf := copies ++ List.replicate (a.cap - a.len) 0,
                len := a.len, cap := a.cap }, [])

/-- `array_find` (array.c:320-341): linear scan, first index whose
element compares equal to the key (`cmp key item = 0`). -/
def array_find (cmp : Ptr → Ptr → Int) (a : ArrayC) (p_key : Ptr) :
    ArrayErr × Option Nat :=
  match (List.range a.len).find? (fun idx =>
      cmp p_key (a.buf.getD idx 0) == 0) with
  | some idx => (ARRAY_SUCCESS, some idx)
  | none => (ARRAY_NOT_FOUND, none)

/-- Modelled from the spec: the repository snapshot under `src/` has no
`SortedSearch` implementation (no declaration, caller or test refers to
one), so the binary-search loop is taken from the spec's words:
half-open window `[low, high)`, midpoint `mid = low + (high - low) / 2`,
descend left when `compare(mid_value, key) > 0`, right when `< 0`,
answer `mid` on `0`. -/
def sorted_search_go (cmp : Ptr → Ptr → Int) (buf : List Ptr) (key : Ptr)
    (low high : Nat) : Option Nat :=
  if _h : low < high then
    if 0 < cmp (buf.getD (low + (high - low) / 2) 0) key then
      sorted_search_go cmp buf key low (low + (high - low) / 2)
    else if cmp (buf.getD (low + (high - low) / 2) 0) key < 0 then
      sorted_search_go cmp buf key (low + (high - low) / 2 + 1) high
    else
      some (low + (high - low) / 2)
  else
    none
  termination_by high - low
  decreasing_by
  · omega
  · omega

/-- Modelled from the spec: `SortedSearch(array, key) → index` — binary
search over the live prefix `[0, len)`, returning the found index or a
not-found result. -/
def array_sorted_search (cmp : Ptr → Ptr → Int) (a : ArrayC) (p_key : Ptr) :
    ArrayErr × Option Nat :=
  match sorted_search_go cmp a.buf p_key 0 a.len with
  | some idx => (ARRAY_SUCCESS, some idx)
  | none => (ARRAY_NOT_FOUND, none)

/-! ## Operation sequences

A step relation over the mutating operations of §4.2 that are modelled
here, used to state the invariant claims that quantify over "every
sequence of operations". -/

/-- One mutating call of the engine, with its allocation oracle. -/
inductive ArrayOp where
  | insert (index : Nat) (p_value : Ptr) (allocOk : Bool)
  | remove (index : Nat) (allocOk : Bool)
  | push (p_value : Ptr) (allocOk : Bool)
  | pop (allocOk : Bool)
  | set (index : Nat) (p_value : Ptr) (allocOk : Bool)
  deriving DecidableEq, Repr

/-- The array state after one call (error codes and logs dropped). -/
def applyOp (a : ArrayC) : ArrayOp → ArrayC
  | .insert i v ok => (array_insert a i v ok).arr
  | .remove i ok => (array_remove a i ok).arr
  | .push v ok => (array_push a v ok).arr
  | .pop ok => (array_pop a ok).arr
  | .set i v ok => (array_set a i v ok).arr

/-- The array state after a sequence of calls. -/
def applyOps (a : ArrayC) (ops : List ArrayOp) : ArrayC :=
  ops.foldl applyOp a

/-! ## Structural lemmas -/

theorem insertShiftBuf_length {buf : List Ptr} {index len : Nat} (v : Ptr)
    (h1 : index ≤ len) (h2 : len < buf.length) :
    (insertShiftBuf buf index len v).length = buf.length := by
  simp only [insertShiftBuf, List.length_append, List.length_take,
    List.length_cons, List.length_drop]
  omega

theorem removeShiftBuf_length {buf : List Ptr} {index len : Nat}
    (h1 : index < len) (h2 : len ≤ buf.length) :
    (removeShiftBuf buf index len).length = buf.length := by
  simp only [removeShiftBuf, List.length_append, List.length_take,
    List.length_cons, List.length_drop]
  omega

theorem array_reserve_arr (a : ArrayC) (new_cap : Nat) (allocOk : Bool) :
    (array_reserve a new_cap allocOk).2 = a ∨
      ((array_reserve a new_cap allocOk).1 = ARRAY_SUCCESS ∧
        a.cap < new_cap ∧ new_cap ≤ ARRAY_MAX_SIZE ∧ allocOk = true ∧
        (array_reserve a new_cap allocOk).2 =
          { a with buf := a.buf ++ List.replicate (new_cap - a.cap) 0,
                   cap := new_cap }) := by
  unfold array_reserve
  by_cases h1 : new_cap ≤ a.cap ∨ ARRAY_MAX_SIZE < new_cap
  · rw [if_pos h1]; exact Or.inl rfl
  · rw [if_neg h1]
    push_neg at h1
    cases allocOk
    · exact Or.inl rfl
    · exact Or.inr ⟨rfl, h1.1, h1.2, rfl, rfl⟩

theorem array_reserve_fail (a : ArrayC) (new_cap : Nat) (allocOk : Bool)
    (h : (array_reserve a new_cap allocOk).1 ≠ ARRAY_SUCCESS) :
    (array_reserve a new_cap allocOk).2 = a := by
  rcases array_reserve_arr a new_cap allocOk with h' | h'
  · exact h'
  · exact absurd h'.1 h

theorem array_reserve_wf {a : ArrayC} (new_cap : Nat) (allocOk : Bool)
    (hwf : a.Wf) : (array_reserve a new_cap allocOk).2.Wf := by
  rcases array_reserve_arr a new_cap allocOk with h | h
  · rw [h]; exact hwf
  · rw [h.2.2.2.2]
    obtain ⟨hbuf, hlen⟩ := hwf
    refine ⟨?_, ?_⟩
    · simp only [List.length_append, List.length_replicate, hbuf]
      omega
    · simp only []
      omega

theorem array_shrink_to_fit_arr (a : ArrayC) (allocOk : Bool) :
    (array_shrink_to_fit a allocOk).2 = a ∨
      (a.len < a.cap / ARRAY_SHRINK_THRESHOLD_DIVISOR ∧
        ARRAY_MIN_CAPACITY < a.cap ∧ allocOk = true ∧
        (array_shrink_to_fit a allocOk).1 = ARRAY_SUCCESS ∧
        (array_shrink_to_fit a allocOk).2 =
          { a with buf := a.buf.take
                     (max (a.cap / ARRAY_SHRINK_FACTOR) ARRAY_MIN_CAPACITY),
                   cap := max (a.cap / ARRAY_SHRINK_FACTOR)
                     ARRAY_MIN_CAPACITY }) := by
  unfold array_shrink_to_fit
  by_cases h1 : a.cap / ARRAY_SHRINK_THRESHOLD_DIVISOR ≤ a.len ∨
      a.cap ≤ ARRAY_MIN_CAPACITY
  · rw [if_pos h1]; exact Or.inl rfl
  · rw [if_neg h1]
    push_neg at h1
    cases allocOk
    · exact Or.inl rfl
    · exact Or.inr ⟨h1.1, h1.2, rfl, rfl, rfl⟩

theorem array_shrink_to_fit_wf {a : ArrayC} (allocOk : Bool)
    (hwf : a.Wf) : (array_shrink_to_fit a allocOk).2.Wf := by
  rcases array_shrink_to_fit_arr a allocOk with h | h
  · rw [h]; exact hwf
  · obtain ⟨htrig, hcap, -, -, harr⟩ := h
    rw [harr]
    obtain ⟨hbuf, hlen⟩ := hwf
    constructor
    · simp only [List.length_take, hbuf]
      have : a.cap / ARRAY_SHRINK_FACTOR ≤ a.cap := Nat.div_le_self _ _
      simp only [ARRAY_MIN_CAPACITY] at *
      omega
    · simp only []
      have h6 : a.cap / ARRAY_SHRINK_THRESHOLD_DIVISOR ≤
          a.cap / ARRAY_SHRINK_FACTOR := by
        apply Nat.div_le_div_left
        · decide
        · decide
      omega

/-- Capacity after a shrink evaluation: unchanged, or the hysteresis
target. -/
theorem array_shrink_to_fit_cap (a : ArrayC) (allocOk : Bool) :
    (array_shrink_to_fit a allocOk).2.cap = a.cap ∨
      ((array_shrink_to_fit a allocOk).2.cap =
          max (a.cap / ARRAY_SHRINK_FACTOR) ARRAY_MIN_CAPACITY ∧
        a.len < a.cap / ARRAY_SHRINK_THRESHOLD_DIVISOR ∧
        ARRAY_MIN_CAPACITY < a.cap ∧ allocOk = true) := by
  rcases array_shrink_to_fit_arr a allocOk with h | h
  · exact Or.inl (by rw [h])
  · exact Or.inr ⟨by rw [h.2.2.2.2], h.1, h.2.1, h.2.2.1⟩

theorem array_reserve_len (a : ArrayC) (new_cap : Nat) (allocOk : Bool) :
    (array_reserve a new_cap allocOk).2.len = a.len := by
  rcases array_reserve_arr a new_cap allocOk with h | h
  · rw [h]
  · rw [h.2.2.2.2]

theorem array_shrink_to_fit_len (a : ArrayC) (allocOk : Bool) :
    (array_shrink_to_fit a allocOk).2.len = a.len := by
  rcases array_shrink_to_fit_arr a allocOk with h | h
  · rw [h]
  · rw [h.2.2.2.2]

theorem array_reserve_succ {a : ArrayC} {new_cap : Nat} {allocOk : Bool}
    (h : (array_reserve a new_cap allocOk).1 = ARRAY_SUCCESS) :
    a.cap < new_cap ∧ new_cap ≤ ARRAY_MAX_SIZE ∧ allocOk = true ∧
      (array_reserve a new_cap allocOk).2 =
        { a with buf := a.buf ++ List.replicate (new_cap - a.cap) 0,
                 cap := new_cap } := by
  unfold array_reserve at h ⊢
  by_cases h1 : new_cap ≤ a.cap ∨ ARRAY_MAX_SIZE < new_cap
  · rw [if_pos h1] at h; simp at h
  · rw [if_neg h1] at h ⊢
    push_neg at h1
    cases allocOk
    · simp at h
    · exact ⟨h1.1, h1.2, rfl, rfl⟩

theorem array_insert_wf {a : ArrayC} (i : Nat) (v : Ptr) (ok : Bool)
    (hwf : a.Wf) : (array_insert a i v ok).arr.Wf := by
  unfold array_insert
  by_cases hv : v = 0
  · rw [if_pos hv]; exact hwf
  rw [if_neg hv]
  by_cases hidx : a.len < i
  · rw [if_pos hidx]; exact hwf
  rw [if_neg hidx]
  push_neg at hidx
  by_cases hfull : array_is_full a
  all_goals simp only [hfull, if_true, if_false, Bool.false_eq_true]
  · -- full: growth attempted first
    set t := a.cap * ARRAY_RESIZE_FACTOR % SIZE_T_MOD with ht
    by_cases hsucc : (array_reserve a t ok).1 = ARRAY_SUCCESS
    · rw [if_pos hsucc]
      obtain ⟨hlt, -, -, harr⟩ := array_reserve_succ hsucc
      have hrwf := array_reserve_wf (a := a) t ok hwf
      have hrlen := array_reserve_len a t ok
      have hcap : (array_reserve a t ok).2.cap = t := by rw [harr]
      have hlen_lt : (array_reserve a t ok).2.len <
          (array_reserve a t ok).2.cap := by
        rw [hrlen, hcap]; exact lt_of_le_of_lt hwf.2 hlt
      refine ⟨?_, ?_⟩
      · simp only []
        rw [insertShiftBuf_length v (hrlen ▸ hidx) (hrwf.1 ▸ hlen_lt)]
        exact hrwf.1
      · exact Nat.succ_le_of_lt hlen_lt
    · rw [if_neg hsucc]
      exact array_reserve_wf t ok hwf
  · -- not full: room already available
    have hne : a.len ≠ a.cap := by
      intro hcontra
      exact hfull (by simp [array_is_full, hcontra])
    have hlt : a.len < a.cap := lt_of_le_of_ne hwf.2 hne
    refine ⟨?_, ?_⟩
    · simp only []
      rw [insertShiftBuf_length v hidx (hwf.1 ▸ hlt)]
      exact hwf.1
    · exact Nat.succ_le_of_lt hlt

theorem array_remove_wf {a : ArrayC} (i : Nat) (ok : Bool)
    (hwf : a.Wf) : (array_remove a i ok).arr.Wf := by
  unfold array_remove
  by_cases hidx : a.len ≤ i
  · rw [if_pos hidx]; exact hwf
  rw [if_neg hidx]
  push_neg at hidx
  obtain ⟨hb, hl⟩ := hwf
  simp only []
  apply array_shrink_to_fit_wf
  refine ⟨?_, ?_⟩
  · simp only []
    rw [removeShiftBuf_length hidx (by omega)]
    exact hb
  · simp only []
    omega

theorem array_pop_wf {a : ArrayC} (ok : Bool) (hwf : a.Wf) :
    (array_pop a ok).arr.Wf := by
  unfold array_pop
  by_cases hlen : a.len = 0
  · rw [if_pos hlen]; exact hwf
  rw [if_neg hlen]
  obtain ⟨hb, hl⟩ := hwf
  simp only []
  apply array_shrink_to_fit_wf
  refine ⟨?_, ?_⟩
  · simp only [List.length_set]; exact hb
  · simp only []; omega

theorem array_set_wf {a : ArrayC} (i : Nat) (v : Ptr) (ok : Bool)
    (hwf : a.Wf) : (array_set a i v ok).arr.Wf := by
  unfold array_set
  by_cases hv : v = 0
  · rw [if_pos hv]; exact hwf
  rw [if_neg hv]
  by_cases hidx : a.len < i
  · rw [if_pos hidx]; exact hwf
  rw [if_neg hidx]
  by_cases heq : i = a.len
  · rw [if_pos heq]; exact array_insert_wf i v ok hwf
  · rw [if_neg heq]
    exact ⟨by simp only [List.length_set]; exact hwf.1, hwf.2⟩

theorem array_push_wf {a : ArrayC} (v : Ptr) (ok : Bool)
    (hwf : a.Wf) : (array_push a v ok).arr.Wf := by
  unfold array_push
  by_cases hv : v = 0
  · rw [if_pos hv]; exact hwf
  · rw [if_neg hv]; exact array_insert_wf a.len v ok hwf

theorem applyOp_wf {a : ArrayC} (op : ArrayOp) (hwf : a.Wf) :
    (applyOp a op).Wf := by
  cases op with
  | insert i v ok => exact array_insert_wf i v ok hwf
  | remove i ok => exact array_remove_wf i ok hwf
  | push v ok => exact array_push_wf v ok hwf
  | pop ok => exact array_pop_wf ok hwf
  | set i v ok => exact array_set_wf i v ok hwf

theorem applyOps_wf {a : ArrayC} (ops : List ArrayOp) (hwf : a.Wf) :
    (applyOps a ops).Wf := by
  induction ops generalizing a with
  | nil => exact hwf
  | cons op rest ih => exact ih (applyOp_wf op hwf)

theorem array_shrink_to_fit_cap_bounds (a : ArrayC) (allocOk : Bool) :
    min a.cap ARRAY_MIN_CAPACITY ≤ (array_shrink_to_fit a allocOk).2.cap ∧
      (array_shrink_to_fit a allocOk).2.cap ≤ a.cap := by
  rcases array_shrink_to_fit_cap a allocOk with h | ⟨hc, -, hm, -⟩
  · rw [h]; exact ⟨min_le_left _ _, le_refl _⟩
  · rw [hc]
    have hdiv : a.cap / ARRAY_SHRINK_FACTOR ≤ a.cap := Nat.div_le_self _ _
    constructor
    · exact le_trans (min_le_right _ _) (le_max_right _ _)
    · simp only [ARRAY_MIN_CAPACITY] at hm ⊢
      omega

theorem array_reserve_cap_bounds (a : ArrayC) (new_cap : Nat)
    (allocOk : Bool) :
    a.cap ≤ (array_reserve a new_cap allocOk).2.cap ∧
      (array_reserve a new_cap allocOk).2.cap ≤ max a.cap ARRAY_MAX_SIZE := by
  rcases array_reserve_arr a new_cap allocOk with h | ⟨-, hlt, hle, -, harr⟩
  · rw [h]; exact ⟨le_refl _, le_max_left _ _⟩
  · rw [harr]
    exact ⟨le_of_lt hlt, le_trans hle (le_max_right _ _)⟩

theorem array_insert_cap_eq (a : ArrayC) (i : Nat) (v : Ptr) (ok : Bool) :
    (array_insert a i v ok).arr.cap = a.cap ∨
      (array_insert a i v ok).arr.cap =
        (array_reserve a (a.cap * ARRAY_RESIZE_FACTOR % SIZE_T_MOD) ok).2.cap
  := by
  unfold array_insert
  by_cases hv : v = 0
  · rw [if_pos hv]; exact Or.inl rfl
  rw [if_neg hv]
  by_cases hidx : a.len < i
  · rw [if_pos hidx]; exact Or.inl rfl
  rw [if_neg hidx]
  by_cases hfull : array_is_full a
  all_goals simp only [hfull, if_true, if_false, Bool.false_eq_true]
  · by_cases hsucc : (array_reserve a
        (a.cap * ARRAY_RESIZE_FACTOR % SIZE_T_MOD) ok).1 = ARRAY_SUCCESS
    · rw [if_pos hsucc]; exact Or.inr rfl
    · rw [if_neg hsucc]; exact Or.inr rfl
  · exact Or.inl trivial

theorem array_insert_cap_bounds (a : ArrayC) (i : Nat) (v : Ptr)
    (ok : Bool) :
    a.cap ≤ (array_insert a i v ok).arr.cap ∧
      (array_insert a i v ok).arr.cap ≤ max a.cap ARRAY_MAX_SIZE := by
  rcases array_insert_cap_eq a i v ok with h | h
  · rw [h]; exact ⟨le_refl _, le_max_left _ _⟩
  · rw [h]; exact array_reserve_cap_bounds a _ ok

theorem array_remove_cap_bounds (a : ArrayC) (i : Nat) (ok : Bool) :
    min a.cap ARRAY_MIN_CAPACITY ≤ (array_remove a i ok).arr.cap ∧
      (array_remove a i ok).arr.cap ≤ a.cap := by
  unfold array_remove
  by_cases hidx : a.len ≤ i
  · rw [if_pos hidx]; exact ⟨min_le_left _ _, le_refl _⟩
  · rw [if_neg hidx]
    simp only []
    exact array_shrink_to_fit_cap_bounds
      { a with buf := removeShiftBuf a.buf i a.len, len := a.len - 1 } ok

theorem array_pop_cap_bounds (a : ArrayC) (ok : Bool) :
    min a.cap ARRAY_MIN_CAPACITY ≤ (array_pop a ok).arr.cap ∧
      (array_pop a ok).arr.cap ≤ a.cap := by
  unfold array_pop
  by_cases hlen : a.len = 0
  · rw [if_pos hlen]; exact ⟨min_le_left _ _, le_refl _⟩
  · rw [if_neg hlen]
    simp only []
    exact array_shrink_to_fit_cap_bounds
      { a with buf := a.buf.set (a.len - 1) 0, len := a.len - 1 } ok

theorem array_set_cap_eq (a : ArrayC) (i : Nat) (v : Ptr) (ok : Bool) :
    (array_set a i v ok).arr.cap = a.cap ∨
      (array_set a i v ok).arr = (array_insert a i v ok).arr := by
  unfold array_set
  by_cases hv : v = 0
  · rw [if_pos hv]; exact Or.inl rfl
  rw [if_neg hv]
  by_cases hidx : a.len < i
  · rw [if_pos hidx]; exact Or.inl rfl
  rw [if_neg hidx]
  by_cases heq : i = a.len
  · rw [if_pos heq]
    exact Or.inr rfl
  · rw [if_neg heq]; exact Or.inl rfl

theorem applyOp_cap_bounds (a : ArrayC) (op : ArrayOp) :
    min a.cap ARRAY_MIN_CAPACITY ≤ (applyOp a op).cap ∧
      (applyOp a op).cap ≤ max a.cap ARRAY_MAX_SIZE := by
  cases op with
  | insert i v ok =>
    obtain ⟨h1, h2⟩ := array_insert_cap_bounds a i v ok
    exact ⟨le_trans (min_le_left _ _) h1, h2⟩
  | remove i ok =>
    obtain ⟨h1, h2⟩ := array_remove_cap_bounds a i ok
    exact ⟨h1, le_trans h2 (le_max_left _ _)⟩
  | push v ok =>
    simp only [applyOp]
    unfold array_push
    by_cases hv : v = 0
    · rw [if_pos hv]; exact ⟨min_le_left _ _, le_max_left _ _⟩
    · rw [if_neg hv]
      obtain ⟨h1, h2⟩ := array_insert_cap_bounds a a.len v ok
      exact ⟨le_trans (min_le_left _ _) h1, h2⟩
  | pop ok =>
    obtain ⟨h1, h2⟩ := array_pop_cap_bounds a ok
    exact ⟨h1, le_trans h2 (le_max_left _ _)⟩
  | set i v ok =>
    simp only [applyOp]
    rcases array_set_cap_eq a i v ok with h | h
    · rw [h]; exact ⟨min_le_left _ _, le_max_left _ _⟩
    · rw [h]
      obtain ⟨h1, h2⟩ := array_insert_cap_bounds a i v ok
      exact ⟨le_trans (min_le_left _ _) h1, h2⟩

theorem applyOps_cap_bounds (a : ArrayC) (ops : List ArrayOp) :
    min a.cap ARRAY_MIN_CAPACITY ≤ (applyOps a ops).cap ∧
      (applyOps a ops).cap ≤ max a.cap ARRAY_MAX_SIZE := by
  induction ops generalizing a with
  | nil => exact ⟨min_le_left _ _, le_max_left _ _⟩
  | cons op rest ih =>
    obtain ⟨hop1, hop2⟩ := applyOp_cap_bounds a op
    obtain ⟨ih1, ih2⟩ := ih (applyOp a op)
    constructor
    · calc min a.cap ARRAY_MIN_CAPACITY
          ≤ min (applyOp a op).cap ARRAY_MIN_CAPACITY :=
            le_min hop1 (min_le_right _ _)
      _ ≤ (applyOps (applyOp a op) rest).cap := ih1
      _ = (applyOps a (op :: rest)).cap := rfl
    · calc (applyOps a (op :: rest)).cap
          = (applyOps (applyOp a op) rest).cap := rfl
      _ ≤ max (applyOp a op).cap ARRAY_MAX_SIZE := ih2
      _ ≤ max (max a.cap ARRAY_MAX_SIZE) ARRAY_MAX_SIZE := by
            exact max_le_max_right _ hop2
      _ = max a.cap ARRAY_MAX_SIZE := by rw [max_assoc, max_self]

theorem getD_take_lt (l : List Ptr) (i n : Nat) (h : i < n) :
    (l.take n).getD i 0 = l.getD i 0 := by
  rcases lt_or_ge i l.length with hi | hi
  · rw [List.getD_eq_getElem _ _ (by simp; omega),
      List.getD_eq_getElem _ _ hi]
    simp [List.getElem_take]
  · rw [List.getD_eq_default _ _ (by simp; omega),
      List.getD_eq_default _ _ hi]

theorem getD_cons_succ (x : Ptr) (xs : List Ptr) (n : Nat) :
    (x :: xs).getD (n + 1) 0 = xs.getD n 0 := rfl

theorem getD_drop (l : List Ptr) (n i : Nat) :
    (l.drop n).getD i 0 = l.getD (n + i) 0 := by
  rcases lt_or_ge (n + i) l.length with hi | hi
  · rw [List.getD_eq_getElem _ _ (by simp; omega),
      List.getD_eq_getElem _ _ hi]
    simp [List.getElem_drop]
  · rw [List.getD_eq_default _ _ (by simp; omega),
      List.getD_eq_default _ _ hi]

theorem insertShiftBuf_getD_lt {buf : List Ptr} {index len j : Nat}
    (v : Ptr) (hj : j < index) (hidx : index ≤ len)
    (hlen : len < buf.length) :
    (insertShiftBuf buf index len v).getD j 0 = buf.getD j 0 := by
  have hmin : min index buf.length = index := Nat.min_eq_left (by omega)
  unfold insertShiftBuf
  rw [List.getD_append _ _ _ _ (by
    simp only [List.length_append, List.length_take, List.length_cons, hmin]
    omega)]
  rw [List.getD_append _ _ _ _ (by
    simp only [List.length_take, hmin]
    omega)]
  exact getD_take_lt buf j index hj

theorem insertShiftBuf_getD_self {buf : List Ptr} {index len : Nat}
    (v : Ptr) (hidx : index ≤ len) (hlen : len < buf.length) :
    (insertShiftBuf buf index len v).getD index 0 = v := by
  have hmin : min index buf.length = index := Nat.min_eq_left (by omega)
  unfold insertShiftBuf
  rw [List.getD_append _ _ _ _ (by
    simp only [List.length_append, List.length_take, List.length_cons, hmin]
    omega)]
  rw [List.getD_append_right _ _ _ _ (by
    simp only [List.length_take, hmin]
    omega)]
  simp only [List.length_take, hmin, Nat.sub_self]
  rfl

theorem insertShiftBuf_getD_shift {buf : List Ptr} {index len j : Nat}
    (v : Ptr) (hj1 : index < j) (hj2 : j ≤ len) (hlen : len < buf.length) :
    (insertShiftBuf buf index len v).getD j 0 = buf.getD (j - 1) 0 := by
  have hmin : min index buf.length = index := Nat.min_eq_left (by omega)
  have hmin2 : min (len - index) (buf.length - index) = len - index :=
    Nat.min_eq_left (by omega)
  unfold insertShiftBuf
  rw [List.getD_append _ _ _ _ (by
    simp only [List.length_append, List.length_take, List.length_cons,
      List.length_drop, hmin, hmin2]
    omega)]
  rw [List.getD_append_right _ _ _ _ (by
    simp only [List.length_take, hmin]
    omega)]
  simp only [List.length_take, hmin]
  have hsub : j - index = (j - index - 1) + 1 := by omega
  rw [hsub, getD_cons_succ]
  rw [getD_take_lt _ _ _ (by omega), getD_drop]
  congr 1
  omega

theorem insertShiftBuf_getD_gt {buf : List Ptr} {index len j : Nat}
    (v : Ptr) (hj : len < j) (hidx : index ≤ len) (hlen : len < buf.length) :
    (insertShiftBuf buf index len v).getD j 0 = buf.getD j 0 := by
  have hmin : min index buf.length = index := Nat.min_eq_left (by omega)
  have hmin2 : min (len - index) (buf.length - index) = len - index :=
    Nat.min_eq_left (by omega)
  rcases lt_or_ge j buf.length with hjl | hjl
  · unfold insertShiftBuf
    rw [List.getD_append_right _ _ _ _ (by
      simp only [List.length_append, List.length_take, List.length_cons,
        List.length_drop, hmin, hmin2]
      omega)]
    rw [getD_drop]
    congr 1
    simp only [List.length_append, List.length_take, List.length_cons,
      List.length_drop, hmin, hmin2]
    omega
  · rw [List.getD_eq_default _ _ hjl, List.getD_eq_default]
    rw [insertShiftBuf_length v hidx hlen]
    exact hjl

theorem array_shrink_to_fit_getD (a : ArrayC) (allocOk : Bool) (i : Nat)
    (h : i < a.len) :
    (array_shrink_to_fit a allocOk).2.buf.getD i 0 = a.buf.getD i 0 := by
  rcases array_shrink_to_fit_arr a allocOk with harr | ⟨htrig, -, -, -, harr⟩
  · rw [harr]
  · rw [harr]
    simp only []
    apply getD_take_lt
    have h6 : a.cap / ARRAY_SHRINK_THRESHOLD_DIVISOR ≤
        a.cap / ARRAY_SHRINK_FACTOR := by
      apply Nat.div_le_div_left
      · decide
      · decide
    have : a.cap / ARRAY_SHRINK_FACTOR ≤
        max (a.cap / ARRAY_SHRINK_FACTOR) ARRAY_MIN_CAPACITY :=
      le_max_left _ _
    omega

theorem array_shrink_to_fit_fail {a : ArrayC} {allocOk : Bool}
    (h : (array_shrink_to_fit a allocOk).1 ≠ ARRAY_SUCCESS) :
    (array_shrink_to_fit a allocOk).2 = a := by
  rcases array_shrink_to_fit_arr a allocOk with h' | h'
  · exact h'
  · exact absurd h'.2.2.2.1 h

theorem array_insert_fail (a : ArrayC) (i : Nat) (v : Ptr) (ok : Bool)
    (h : (array_insert a i v ok).err ≠ ARRAY_SUCCESS) :
    (array_insert a i v ok).arr = a ∧ (array_insert a i v ok).dels = [] := by
  unfold array_insert at h ⊢
  by_cases hv : v = 0
  · rw [if_pos hv]; exact ⟨rfl, rfl⟩
  rw [if_neg hv] at h ⊢
  by_cases hidx : a.len < i
  · rw [if_pos hidx]; exact ⟨rfl, rfl⟩
  rw [if_neg hidx] at h ⊢
  by_cases hfull : array_is_full a
  all_goals simp only [hfull, if_true, if_false, Bool.false_eq_true] at h ⊢
  · by_cases hsucc : (array_reserve a
        (a.cap * ARRAY_RESIZE_FACTOR % SIZE_T_MOD) ok).1 = ARRAY_SUCCESS
    · rw [if_pos hsucc] at h
      simp only [] at h
      exact absurd rfl h
    · rw [if_neg hsucc] at h ⊢
      exact ⟨array_reserve_fail a _ ok hsucc, rfl⟩
  · exact absurd rfl h

theorem array_set_fail (a : ArrayC) (i : Nat) (v : Ptr) (ok : Bool)
    (h : (array_set a i v ok).err ≠ ARRAY_SUCCESS) :
    (array_set a i v ok).arr = a ∧ (array_set a i v ok).dels = [] := by
  unfold array_set at h ⊢
  by_cases hv : v = 0
  · rw [if_pos hv]; exact ⟨rfl, rfl⟩
  rw [if_neg hv] at h ⊢
  by_cases hidx : a.len < i
  · rw [if_pos hidx]; exact ⟨rfl, rfl⟩
  rw [if_neg hidx] at h ⊢
  by_cases heq : i = a.len
  · rw [if_pos heq] at h ⊢
    exact array_insert_fail a i v ok h
  · rw [if_neg heq] at h
    simp only [] at h
    exact absurd rfl h

/-! ## Concrete arrays used by witnesses and counterexamples -/

/-- A well-formed empty array of capacity 1 (as built by
`array_create 1`). -/
def exArr1 : ArrayC := { buf := [0], len := 0, cap := 1 }

/-- A well-formed array of capacity 60 holding one live element `5`:
popping or removing it drops the length to `0 < 60 / 6`, so the shrink
policy triggers. -/
def exArr60 : ArrayC :=
  { buf := 5 :: List.replicate 59 0, len := 1, cap := 60 }

/-! ## C1 -/

/-- C1 counterexample.  The claim says a failed `Insert`/`Set` with an
out-of-bounds index deletes the passed-in element.  At the concrete
array `exArr1` (length 0), `array_insert` at index 1 and `array_set` at
index 1 both fail with `ARRAY_OUT_OF_BOUNDS`, yet the delete log is
empty: the delete capability is never invoked on the rejected element
`7`. -/
theorem c1_counterexample :
    (array_insert exArr1 1 7 true).err = ARRAY_OUT_OF_BOUNDS ∧
      (array_insert exArr1 1 7 true).dels = [] ∧
      ¬ 7 ∈ (array_insert exArr1 1 7 true).dels ∧
      (array_set exArr1 1 7 true).err = ARRAY_OUT_OF_BOUNDS ∧
      (array_set exArr1 1 7 true).dels = [] ∧
      ¬ 7 ∈ (array_set exArr1 1 7 true).dels := by decide

/-- C1 (amended): every failing `array_insert` or `array_set` call —
out-of-bounds index as much as invalid argument — leaves the array
untouched and never invokes the delete capability, neither on the
passed-in element nor on anything else; the caller retains ownership of
the element on every failure path (matching the ownership note at the
top of array.c, and contradicting the spec's
"deleted-by-the-array-on-bad-index" rule). -/
theorem c1_failure_no_delete (a : ArrayC) (i : Nat) (v : Ptr) (ok : Bool) :
    ((array_insert a i v ok).err ≠ ARRAY_SUCCESS →
      (array_insert a i v ok).arr = a ∧ (array_insert a i v ok).dels = []) ∧
    ((array_set a i v ok).err ≠ ARRAY_SUCCESS →
      (array_set a i v ok).arr = a ∧ (array_set a i v ok).dels = []) :=
  ⟨array_insert_fail a i v ok, array_set_fail a i v ok⟩

/-- C1 witness: the amended theorem applied at the out-of-bounds insert
of `c1_counterexample`. -/
theorem c1_witness :
    (array_insert exArr1 1 7 true).err ≠ ARRAY_SUCCESS ∧
      (array_insert exArr1 1 7 true).arr = exArr1 ∧
      (array_insert exArr1 1 7 true).dels = [] ∧
      (array_set exArr1 1 7 true).arr = exArr1 ∧
      (array_set exArr1 1 7 true).dels = [] :=
  ⟨by decide,
    ((c1_failure_no_delete exArr1 1 7 true).1 (by decide)).1,
    ((c1_failure_no_delete exArr1 1 7 true).1 (by decide)).2,
    ((c1_failure_no_delete exArr1 1 7 true).2 (by decide)).1,
    ((c1_failure_no_delete exArr1 1 7 true).2 (by decide)).2⟩

/-! ## C3 -/

/-- C3 counterexample.  The claim says a successful `Pop` reports
success even when the subsequent shrink reallocation fails.  On the
concrete non-empty array `exArr60` with a failing `realloc`, the pop
does remove the tail element (length drops to 0 and the element is
written to the out-parameter) but the call reports
`ARRAY_ALLOCATION_FAILURE`, not success. -/
theorem c3_counterexample :
    0 < exArr60.len ∧
      (array_pop exArr60 false).err = ARRAY_ALLOCATION_FAILURE ∧
      (array_pop exArr60 false).err ≠ ARRAY_SUCCESS ∧
      (array_pop exArr60 false).arr.len = exArr60.len - 1 ∧
      (array_pop exArr60 false).out = some 5 := by decide

/-- C3 (amended): `array_remove` at a valid index always reports
success, whatever the shrink evaluation returns; `array_pop` on a
non-empty array removes the tail element and hands it to the caller but
returns the shrink result as its own — a failed shrink reallocation is
surfaced as `ARRAY_ALLOCATION_FAILURE` (with capacity left unchanged)
instead of being swallowed. -/
theorem c3_remove_swallows_pop_propagates (a : ArrayC) (i : Nat)
    (ok : Bool) :
    (i < a.len → (array_remove a i ok).err = ARRAY_SUCCESS) ∧
    (0 < a.len →
      (array_pop a ok).err =
        (array_shrink_to_fit
          { a with buf := a.buf.set (a.len - 1) 0, len := a.len - 1 } ok).1 ∧
      (array_pop a ok).arr.len = a.len - 1 ∧
      (array_pop a ok).out = some (a.buf.getD (a.len - 1) 0) ∧
      ((array_pop a ok).err ≠ ARRAY_SUCCESS →
        (array_pop a ok).arr.cap = a.cap)) := by
  constructor
  · intro hi
    unfold array_remove
    rw [if_neg (by omega)]
  · intro hlen
    unfold array_pop
    rw [if_neg (by omega)]
    refine ⟨rfl, ?_, rfl, ?_⟩
    · simp only []
      rw [array_shrink_to_fit_len]
    · intro herr
      simp only [] at herr ⊢
      rw [array_shrink_to_fit_fail herr]

/-- C3 witness: the amended theorem applied at `exArr60` with a failing
shrink reallocation. -/
theorem c3_witness :
    0 < exArr60.len ∧
      (array_pop exArr60 false).err =
        (array_shrink_to_fit
          { exArr60 with buf := exArr60.buf.set (exArr60.len - 1) 0,
                         len := exArr60.len - 1 } false).1 ∧
      (array_pop exArr60 false).arr.len = exArr60.len - 1 ∧
      (array_pop exArr60 false).out =
        some (exArr60.buf.getD (exArr60.len - 1) 0) ∧
      (array_pop exArr60 false).arr.cap = exArr60.cap :=
  ⟨by decide,
    ((c3_remove_swallows_pop_propagates exArr60 0 false).2 (by decide)).1,
    ((c3_remove_swallows_pop_propagates exArr60 0 false).2 (by decide)).2.1,
    ((c3_remove_swallows_pop_propagates exArr60 0 false).2 (by decide)).2.2.1,
    ((c3_remove_swallows_pop_propagates exArr60 0 false).2
      (by decide)).2.2.2 (by decide)⟩

/-! ## C4 -/

/-- C4 counterexample.  The claim says `Construct` never yields an array
whose capacity exceeds the configured maximum; but `array_create`
(array.c:49-86) never checks `ARRAY_MAX_SIZE`, so constructing with
initial capacity 501 succeeds and yields capacity 501 > 500. -/
theorem c4_counterexample :
    (array_create 501 true).map ArrayC.cap = some 501 ∧
      ARRAY_MAX_SIZE < 501 := by decide

/-- C4 (amended): for every array produced by `array_create` and every
sequence of the modelled §4.2 operations, `length ≤ capacity` (indeed
full well-formedness) holds after every call, and
`capacity ≤ max initial_capacity ARRAY_MAX_SIZE`; in particular when the
initial capacity already respects the maximum, every subsequent state
does too.  `Construct` itself, however, accepts any positive initial
capacity, including ones above `ARRAY_MAX_SIZE`. -/
theorem c4_invariant_all_sequences (icap : Nat) (ok : Bool) (a : ArrayC)
    (h : array_create icap ok = some a) (ops : List ArrayOp) :
    (applyOps a ops).len ≤ (applyOps a ops).cap ∧
      (applyOps a ops).cap ≤ max icap ARRAY_MAX_SIZE ∧
      (icap ≤ ARRAY_MAX_SIZE →
        (applyOps a ops).cap ≤ ARRAY_MAX_SIZE) := by
  unfold array_create at h
  by_cases hc : 0 < icap ∧ ok
  · rw [if_pos hc] at h
    have ha : a = { buf := List.replicate icap 0, len := 0, cap := icap } :=
      (Option.some_injective _ h).symm
    have hwf : a.Wf := by
      rw [ha]
      exact ⟨List.length_replicate _ _, Nat.zero_le _⟩
    have hcap : a.cap = icap := by rw [ha]
    refine ⟨(applyOps_wf ops hwf).2, ?_, ?_⟩
    · have := (applyOps_cap_bounds a ops).2
      rw [hcap] at this
      exact this
    · intro hle
      have := (applyOps_cap_bounds a ops).2
      rw [hcap] at this
      omega
  · rw [if_neg hc] at h
    exact absurd h (by simp)

/-- C4 witness: the amended invariant applied to a freshly constructed
capacity-4 array and a short concrete operation sequence. -/
theorem c4_witness :
    (applyOps { buf := List.replicate 4 0, len := 0, cap := 4 }
        [ArrayOp.push 10 true, ArrayOp.push 20 true,
         ArrayOp.pop true]).len ≤
      (applyOps { buf := List.replicate 4 0, len := 0, cap := 4 }
        [ArrayOp.push 10 true, ArrayOp.push 20 true,
         ArrayOp.pop true]).cap ∧
    (applyOps { buf := List.replicate 4 0, len := 0, cap := 4 }
        [ArrayOp.push 10 true, ArrayOp.push 20 true,
         ArrayOp.pop true]).cap ≤ ARRAY_MAX_SIZE :=
  ⟨(c4_invariant_all_sequences 4 true _ (by decide)
      [ArrayOp.push 10 true, ArrayOp.push 20 true, ArrayOp.pop true]).1,
    (c4_invariant_all_sequences 4 true _ (by decide)
      [ArrayOp.push 10 true, ArrayOp.push 20 true, ArrayOp.pop true]).2.2
      (by decide)⟩

/-! ## C5 -/

/-- C5: the shrink hysteresis policy.  After a removal (`array_remove`
at a valid index, or `array_pop`), the capacity changes only when the
post-removal length is below `capacity / ARRAY_SHRINK_THRESHOLD_DIVISOR`
(divisor 6) and the capacity exceeds `ARRAY_MIN_CAPACITY` (16); when it
does change it becomes exactly
`max (capacity / ARRAY_SHRINK_FACTOR) ARRAY_MIN_CAPACITY`, which is
never below 16.  Consequently, over any sequence of modelled operations
(pushes and pops in particular), the capacity never drops below
`min initial_capacity ARRAY_MIN_CAPACITY`: shrinking can never take it
below 16. -/
theorem c5_shrink_hysteresis (a : ArrayC) (i : Nat) (ok : Bool)
    (ops : List ArrayOp) :
    ((array_remove a i ok).arr.cap ≠ a.cap →
      a.len - 1 < a.cap / ARRAY_SHRINK_THRESHOLD_DIVISOR ∧
      ARRAY_MIN_CAPACITY < a.cap ∧
      (array_remove a i ok).arr.cap =
        max (a.cap / ARRAY_SHRINK_FACTOR) ARRAY_MIN_CAPACITY ∧
      ARRAY_MIN_CAPACITY ≤ (array_remove a i ok).arr.cap) ∧
    ((array_pop a ok).arr.cap ≠ a.cap →
      a.len - 1 < a.cap / ARRAY_SHRINK_THRESHOLD_DIVISOR ∧
      ARRAY_MIN_CAPACITY < a.cap ∧
      (array_pop a ok).arr.cap =
        max (a.cap / ARRAY_SHRINK_FACTOR) ARRAY_MIN_CAPACITY ∧
      ARRAY_MIN_CAPACITY ≤ (array_pop a ok).arr.cap) ∧
    min a.cap ARRAY_MIN_CAPACITY ≤ (applyOps a ops).cap := by
  refine ⟨?_, ?_, (applyOps_cap_bounds a ops).1⟩
  · intro hne
    unfold array_remove at hne ⊢
    by_cases hidx : a.len ≤ i
    · rw [if_pos hidx] at hne
      exact absurd rfl hne
    · rw [if_neg hidx] at hne ⊢
      simp only [] at hne ⊢
      rcases array_shrink_to_fit_cap
          { a with buf := removeShiftBuf a.buf i a.len, len := a.len - 1 }
          ok with hc | ⟨hc, ht, hm, -⟩
      · exact absurd hc hne
      · exact ⟨ht, hm, hc, by rw [hc]; exact le_max_right _ _⟩
  · intro hne
    unfold array_pop at hne ⊢
    by_cases hlen : a.len = 0
    · rw [if_pos hlen] at hne
      exact absurd rfl hne
    · rw [if_neg hlen] at hne ⊢
      simp only [] at hne ⊢
      rcases array_shrink_to_fit_cap
          { a with buf := a.buf.set (a.len - 1) 0, len := a.len - 1 }
          ok with hc | ⟨hc, ht, hm, -⟩
      · exact absurd hc hne
      · exact ⟨ht, hm, hc, by rw [hc]; exact le_max_right _ _⟩

/-- C5 witness: the hysteresis theorem applied at `exArr60`, where a pop
makes the length drop below `60 / 6` and the capacity shrinks from 60 to
`max (60 / 2) 16 = 30`. -/
theorem c5_witness :
    (array_pop exArr60 true).arr.cap ≠ exArr60.cap ∧
      (exArr60.len - 1 < exArr60.cap / ARRAY_SHRINK_THRESHOLD_DIVISOR ∧
        ARRAY_MIN_CAPACITY < exArr60.cap ∧
        (array_pop exArr60 true).arr.cap =
          max (exArr60.cap / ARRAY_SHRINK_FACTOR) ARRAY_MIN_CAPACITY ∧
        ARRAY_MIN_CAPACITY ≤ (array_pop exArr60 true).arr.cap) :=
  ⟨by decide,
    (c5_shrink_hysteresis exArr60 0 true []).2.1 (by decide)⟩

theorem getD_set_self (l : List Ptr) (i : Nat) (v : Ptr)
    (h : i < l.length) : (l.set i v).getD i 0 = v := by
  rw [List.getD_eq_getElem _ _ (by simpa using h)]
  simp

theorem getD_set_ne (l : List Ptr) (i j : Nat) (v : Ptr) (h : i ≠ j) :
    (l.set i v).getD j 0 = l.getD j 0 := by
  rcases lt_or_ge j l.length with hj | hj
  · rw [List.getD_eq_getElem _ _ (by simpa using hj),
      List.getD_eq_getElem _ _ hj]
    rw [List.getElem_set_ne]
    · omega
  · rw [List.getD_eq_default _ _ (by simpa using hj),
      List.getD_eq_default _ _ hj]

/-- A well-formed full array `[1, 2, 5, 8]` (sorted, for the search
claims). -/
def exArr4 : ArrayC := { buf := [1, 2, 5, 8], len := 4, cap := 4 }

/-! ## C10 -/

/-- C10: a successful `array_set` at an index strictly below the length
(the replace path) reports success, leaves length and capacity
unchanged, stores the new handle at the index, leaves every other slot
holding the same handle as before, and involves no growth or shrink
evaluation — the result does not depend on the allocation oracle at
all. -/
theorem c10_set_replace_frame (a : ArrayC) (i : Nat) (v : Ptr)
    (ok ok' : Bool) (hwf : a.Wf) (hi : i < a.len) (hv : v ≠ 0) :
    (array_set a i v ok).err = ARRAY_SUCCESS ∧
      (array_set a i v ok).arr.len = a.len ∧
      (array_set a i v ok).arr.cap = a.cap ∧
      (array_set a i v ok).arr.buf.getD i 0 = v ∧
      (∀ j, j ≠ i → (array_set a i v ok).arr.buf.getD j 0 =
        a.buf.getD j 0) ∧
      array_set a i v ok = array_set a i v ok' := by
  have hbranch : ∀ b : Bool, array_set a i v b =
      { err := ARRAY_SUCCESS,
        arr := { a with buf := a.buf.set i v },
        dels := if a.buf.getD i 0 = 0 then [] else [a.buf.getD i 0] } := by
    intro b
    unfold array_set
    rw [if_neg hv, if_neg (show ¬ a.len < i by omega),
      if_neg (show ¬ i = a.len by omega)]
  rw [hbranch ok, hbranch ok']
  refine ⟨rfl, rfl, rfl, ?_, ?_, rfl⟩
  · exact getD_set_self a.buf i v
      (by have h := hwf.2; rw [hwf.1]; omega)
  · intro j hj
    exact getD_set_ne a.buf i j v (fun hc => hj hc.symm)

/-- C10 witness: the frame theorem applied at the concrete array
`[1, 2, 5, 8]`, replacing slot 1 by `42`. -/
theorem c10_witness :
    (array_set exArr4 1 42 true).err = ARRAY_SUCCESS ∧
      (array_set exArr4 1 42 true).arr.len = exArr4.len ∧
      (array_set exArr4 1 42 true).arr.cap = exArr4.cap ∧
      (array_set exArr4 1 42 true).arr.buf.getD 1 0 = 42 ∧
      (array_set exArr4 1 42 true).arr.buf.getD 3 0 =
        exArr4.buf.getD 3 0 ∧
      array_set exArr4 1 42 true = array_set exArr4 1 42 false := by
  obtain ⟨h1, h2, h3, h4, h5, h6⟩ :=
    c10_set_replace_frame exArr4 1 42 true false (by decide) (by decide)
      (by decide)
  exact ⟨h1, h2, h3, h4, h5 3 (by decide), h6⟩

/-! ## C9 -/

theorem array_push_succ (a : ArrayC) (v : Ptr) (ok : Bool) (hwf : a.Wf)
    (hsucc : (array_insert a a.len v ok).err = ARRAY_SUCCESS) :
    (array_insert a a.len v ok).arr.len = a.len + 1 ∧
      (array_insert a a.len v ok).arr.buf.getD a.len 0 = v := by
  unfold array_insert at hsucc ⊢
  by_cases hv : v = 0
  · rw [if_pos hv] at hsucc
    simp at hsucc
  rw [if_neg hv] at hsucc ⊢
  rw [if_neg (lt_irrefl a.len)] at hsucc ⊢
  by_cases hfull : array_is_full a
  · rw [if_pos hfull] at hsucc ⊢
    set t := a.cap * ARRAY_RESIZE_FACTOR % SIZE_T_MOD with ht
    by_cases hres : (array_reserve a t ok).1 = ARRAY_SUCCESS
    · rw [if_pos hres]
      obtain ⟨hlt, -, -, harr⟩ := array_reserve_succ hres
      have hrwf := array_reserve_wf (a := a) t ok hwf
      have hrlen := array_reserve_len a t ok
      have hcap : (array_reserve a t ok).2.cap = t := by rw [harr]
      refine ⟨by simp only []; rw [hrlen], ?_⟩
      simp only []
      rw [hrlen]
      refine insertShiftBuf_getD_self v (le_refl _) ?_
      have h1 : a.len ≤ a.cap := hwf.2
      rw [hrwf.1, hcap]
      omega
    · rw [if_neg hres] at hsucc
      exact absurd hsucc hres
  · rw [if_neg hfull] at hsucc ⊢
    rw [if_pos (show (ARRAY_SUCCESS, a).1 = ARRAY_SUCCESS from rfl)]
    have hne : a.len ≠ a.cap := by
      intro hcontra
      exact hfull (by simp [array_is_full, hcontra])
    refine ⟨rfl, ?_⟩
    simp only []
    refine insertShiftBuf_getD_self v (le_refl _) ?_
    have h1 : a.len ≤ a.cap := hwf.2
    rw [hwf.1]
    omega

/-- C9: `array_push` is definitionally `array_insert` at index `length`
(identical result record, including on every failure path), and after a
successful push the `array_get` at the new last index returns exactly
the pushed handle — the very same pointer value, not merely an equal
element. -/
theorem c9_push_equiv_insert_get (a : ArrayC) (v : Ptr) (ok : Bool)
    (hwf : a.Wf) :
    array_push a v ok = array_insert a a.len v ok ∧
      ((array_push a v ok).err = ARRAY_SUCCESS →
        (array_push a v ok).arr.len = a.len + 1 ∧
        array_get (array_push a v ok).arr
          ((array_push a v ok).arr.len - 1) = (ARRAY_SUCCESS, some v)) := by
  have hpush : array_push a v ok = array_insert a a.len v ok := by
    unfold array_push array_insert
    by_cases hv : v = 0
    · rw [if_pos hv, if_pos hv]
    · rw [if_neg hv]
  refine ⟨hpush, ?_⟩
  intro hsucc
  rw [hpush] at hsucc ⊢
  obtain ⟨hlen, hget⟩ := array_push_succ a v ok hwf hsucc
  refine ⟨hlen, ?_⟩
  unfold array_get
  rw [hlen]
  rw [if_neg (by omega)]
  rw [Nat.add_sub_cancel, hget]

/-- C9 witness: pushing `9` onto the non-full concrete array
`exArr60` and reading it back at the new tail index. -/
theorem c9_witness :
    array_push exArr60 9 true = array_insert exArr60 exArr60.len 9 true ∧
      (array_push exArr60 9 true).arr.len = exArr60.len + 1 ∧
      array_get (array_push exArr60 9 true).arr
        ((array_push exArr60 9 true).arr.len - 1) =
        (ARRAY_SUCCESS, some 9) :=
  ⟨(c9_push_equiv_insert_get exArr60 9 true (by decide)).1,
    ((c9_push_equiv_insert_get exArr60 9 true (by decide)).2 (by decide)).1,
    ((c9_push_equiv_insert_get exArr60 9 true (by decide)).2 (by decide)).2⟩

/-! ## C8 -/

/-- C8: `array_pop` on a non-empty array hands the tail element to the
caller through the out-parameter and never invokes the delete capability
(its delete log is empty), the length drops by one and the remaining
live slots keep their handles; on an empty array it fails with
`ARRAY_OUT_OF_BOUNDS` leaving the array (and the out-parameter)
untouched.  `array_remove`, by contrast, passes the removed occupant to
the delete capability. -/
theorem c8_pop_ownership (a : ArrayC) (ok : Bool) :
    (0 < a.len →
      (array_pop a ok).out = some (a.buf.getD (a.len - 1) 0) ∧
      (array_pop a ok).dels = [] ∧
      (array_pop a ok).arr.len = a.len - 1 ∧
      (∀ j, j < a.len - 1 →
        (array_pop a ok).arr.buf.getD j 0 = a.buf.getD j 0)) ∧
    (a.len = 0 →
      array_pop a ok =
        { err := ARRAY_OUT_OF_BOUNDS, arr := a, out := none, dels := [] }) ∧
    (∀ i, i < a.len →
      (array_remove a i ok).dels = array_del_ele (a.buf.getD i 0)) := by
  refine ⟨?_, ?_, ?_⟩
  · intro hlen
    unfold array_pop
    rw [if_neg (by omega)]
    refine ⟨rfl, rfl, ?_, ?_⟩
    · simp only []
      rw [array_shrink_to_fit_len]
    · intro j hj
      simp only []
      rw [array_shrink_to_fit_getD _ ok j (by simp only []; omega)]
      exact getD_set_ne a.buf (a.len - 1) j 0 (by omega)
  · intro hlen
    unfold array_pop
    rw [if_pos hlen]
  · intro i hi
    unfold array_remove
    rw [if_neg (by omega)]

/-- C8 witness: popping the concrete array `[1, 2, 5, 8]` returns `8`
with an empty delete log; popping the empty `exArr1` fails
out-of-bounds; removing index 0 of `[1, 2, 5, 8]` logs the delete of
`1`. -/
theorem c8_witness :
    (array_pop exArr4 true).out = some 8 ∧
      (array_pop exArr4 true).dels = [] ∧
      (array_pop exArr4 true).arr.len = exArr4.len - 1 ∧
      array_pop exArr1 true =
        { err := ARRAY_OUT_OF_BOUNDS, arr := exArr1, out := none,
          dels := [] } ∧
      (array_remove exArr4 0 true).dels = array_del_ele 1 := by
  obtain ⟨h1, h2, h3, -⟩ := (c8_pop_ownership exArr4 true).1 (by decide)
  refine ⟨h1, h2, h3, (c8_pop_ownership exArr1 true).2.1 (by decide), ?_⟩
  have h5 := (c8_pop_ownership exArr4 true).2.2 0 (by decide)
  simpa using h5

theorem getD_replicate (n k : Nat) :
    (List.replicate n (0 : Ptr)).getD k 0 = 0 := by
  rcases lt_or_ge k n with h | h
  · rw [List.getD_eq_getElem _ _ (by simpa using h)]
    simp
  · exact List.getD_eq_default _ _ (by simpa using h)

/-! ## C6 -/

/-- C6: inserting at a valid index of a full array (`len = cap`) first
doubles the capacity — the new slots being null — and then stores the
element, shifting the tail; when the doubled capacity would exceed
`ARRAY_MAX_SIZE` or the reallocation fails, the whole insert fails with
a non-success code and the array keeps its prior length, capacity and
contents (and nothing is deleted).  `a.cap < SIZE_T_MOD` records that
the capacity is a representable `size_t` value. -/
theorem c6_full_insert_growth (a : ArrayC) (index : Nat) (v : Ptr)
    (ok : Bool) (hwf : a.Wf) (hpos : 0 < a.cap) (hfull : a.len = a.cap)
    (hidx : index ≤ a.len) (hv : v ≠ 0) (hcap64 : a.cap < SIZE_T_MOD) :
    (2 * a.cap ≤ ARRAY_MAX_SIZE → ok = true →
      (array_insert a index v ok).err = ARRAY_SUCCESS ∧
      (array_insert a index v ok).arr.cap = 2 * a.cap ∧
      (array_insert a index v ok).arr.len = a.len + 1 ∧
      (array_insert a index v ok).arr.buf.getD index 0 = v ∧
      (∀ j, j < index →
        (array_insert a index v ok).arr.buf.getD j 0 = a.buf.getD j 0) ∧
      (∀ j, index < j → j ≤ a.len →
        (array_insert a index v ok).arr.buf.getD j 0 =
          a.buf.getD (j - 1) 0) ∧
      (∀ j, a.len < j →
        (array_insert a index v ok).arr.buf.getD j 0 = 0)) ∧
    (ARRAY_MAX_SIZE < 2 * a.cap ∨ ok = false →
      (array_insert a index v ok).err ≠ ARRAY_SUCCESS ∧
      (array_insert a index v ok).arr = a ∧
      (array_insert a index v ok).dels = []) := by
  have hfullb : array_is_full a = true := by
    simp [array_is_full, hfull]
  set t := a.cap * ARRAY_RESIZE_FACTOR % SIZE_T_MOD with ht
  constructor
  · -- successful growth
    intro hmax hok
    subst hok
    have ht2 : t = 2 * a.cap := by
      have hmax' : 2 * a.cap ≤ 500 := hmax
      have ht' : t = a.cap * 2 % 18446744073709551616 := ht
      omega
    have hres : (array_reserve a t true).1 = ARRAY_SUCCESS ∧
        (array_reserve a t true).2 =
          { a with buf := a.buf ++ List.replicate (t - a.cap) 0,
                   cap := t } := by
      unfold array_reserve
      rw [if_neg (by
        have hmax' : 2 * a.cap ≤ 500 := hmax
        have hm : ARRAY_MAX_SIZE = 500 := rfl
        rw [hm]
        push_neg
        omega)]
      rw [if_pos rfl]
      exact ⟨rfl, rfl⟩
    have hinsert : array_insert a index v true =
        { err := ARRAY_SUCCESS,
          arr := { (array_reserve a t true).2 with
                     buf := insertShiftBuf (array_reserve a t true).2.buf
                       index (array_reserve a t true).2.len v,
                     len := (array_reserve a t true).2.len + 1 },
          dels := [] } := by
      unfold array_insert
      rw [if_neg hv, if_neg (by omega), if_pos hfullb, ← ht,
        if_pos hres.1]
    rw [hinsert]
    have hg := hres.2
    have hglen : (array_reserve a t true).2.len = a.len := by rw [hg]
    have hgcap : (array_reserve a t true).2.cap = t := by rw [hg]
    have hgbuf : (array_reserve a t true).2.buf =
        a.buf ++ List.replicate (t - a.cap) 0 := by rw [hg]
    have hgblen : (array_reserve a t true).2.buf.length = t := by
      rw [hgbuf]
      simp only [List.length_append, List.length_replicate, hwf.1]
      omega
    have hlenlt : a.len < (array_reserve a t true).2.buf.length := by
      rw [hgblen]
      omega
    refine ⟨rfl, by simp only []; rw [hgcap, ht2], by simp only []; rw [hglen],
      ?_, ?_, ?_, ?_⟩
    · simp only []
      rw [hglen]
      exact insertShiftBuf_getD_self v hidx hlenlt
    · intro j hj
      simp only []
      rw [hglen]
      rw [insertShiftBuf_getD_lt v hj hidx hlenlt]
      rw [hgbuf]
      exact List.getD_append _ _ _ _ (by rw [hwf.1]; omega)
    · intro j hj1 hj2
      simp only []
      rw [hglen]
      rw [insertShiftBuf_getD_shift v hj1 hj2 hlenlt]
      rw [hgbuf]
      exact List.getD_append _ _ _ _ (by rw [hwf.1]; omega)
    · intro j hj
      simp only []
      rw [hglen]
      rw [insertShiftBuf_getD_gt v hj hidx hlenlt]
      rw [hgbuf]
      rw [List.getD_append_right _ _ _ _ (by rw [hwf.1]; omega)]
      rw [hwf.1]
      exact getD_replicate _ _
  · -- failed growth: over-maximum target or failing realloc
    intro hfail
    have hres : (array_reserve a t ok).1 ≠ ARRAY_SUCCESS := by
      intro hcontra
      obtain ⟨hlt, hle, hok, -⟩ := array_reserve_succ hcontra
      rcases hfail with hbig | hko
      · have hlt' : a.cap < a.cap * 2 % 18446744073709551616 := ht ▸ hlt
        have hle' : a.cap * 2 % 18446744073709551616 ≤ 500 := ht ▸ hle
        have hbig' : 500 < 2 * a.cap := hbig
        have hcap64' : a.cap < 18446744073709551616 := hcap64
        omega
      · rw [hko] at hok
        exact absurd hok (by decide)
    have hinsert : array_insert a index v ok =
        { err := (array_reserve a t ok).1,
          arr := (array_reserve a t ok).2, dels := [] } := by
      unfold array_insert
      rw [if_neg hv, if_neg (by omega), if_pos hfullb, ← ht,
        if_neg hres]
    rw [hinsert]
    exact ⟨hres, array_reserve_fail a t ok hres, rfl⟩

/-- C6 witness: the spec's own end-to-end scenario — inserting `25` at
index 2 of the full array `[1, 2, 5, 8]` grows the capacity to 8 and
yields `[1, 2, 25, 5, 8, 0, 0, 0]`; with a failing reallocation the
insert fails and the array is untouched. -/
theorem c6_witness :
    ((array_insert exArr4 2 25 true).err = ARRAY_SUCCESS ∧
      (array_insert exArr4 2 25 true).arr.cap = 2 * exArr4.cap ∧
      (array_insert exArr4 2 25 true).arr.len = exArr4.len + 1 ∧
      (array_insert exArr4 2 25 true).arr.buf.getD 2 0 = 25) ∧
    ((array_insert exArr4 2 25 false).err ≠ ARRAY_SUCCESS ∧
      (array_insert exArr4 2 25 false).arr = exArr4 ∧
      (array_insert exArr4 2 25 false).dels = []) := by
  have hs := (c6_full_insert_growth exArr4 2 25 true (by decide) (by decide)
    (by decide) (by decide) (by decide) (by decide)).1 (by decide) rfl
  have hf := (c6_full_insert_growth exArr4 2 25 false (by decide) (by decide)
    (by decide) (by decide) (by decide) (by decide)).2 (Or.inr rfl)
  exact ⟨⟨hs.1, hs.2.1, hs.2.2.1, hs.2.2.2.1⟩, hf⟩

theorem cloneCopies_ok {cpy : Ptr → Ptr} {xs : List Ptr}
    (h : ∀ x ∈ xs, cpy x ≠ 0) :
    cloneCopies cpy xs = Except.ok (xs.map cpy) := by
  induction xs with
  | nil => rfl
  | cons x xs ih =>
    simp only [cloneCopies]
    rw [if_neg (h x (List.mem_cons_self x xs))]
    rw [ih (fun y hy => h y (List.mem_cons_of_mem x hy))]
    rfl

theorem cloneCopies_error {cpy : Ptr → Ptr} {ys : List Ptr} {z : Ptr}
    (zs : List Ptr) (hys : ∀ y ∈ ys, cpy y ≠ 0) (hz : cpy z = 0) :
    cloneCopies cpy (ys ++ z :: zs) = Except.error (ys.map cpy) := by
  induction ys with
  | nil =>
    rw [List.nil_append]
    simp only [cloneCopies]
    rw [if_pos hz]
    rfl
  | cons y ys ih =>
    rw [List.cons_append]
    simp only [cloneCopies]
    rw [if_neg (hys y (List.mem_cons_self y ys))]
    rw [ih (fun w hw => hys w (List.mem_cons_of_mem y hw))]
    rfl

theorem map_take_eq_range_map (l : List Ptr) (f : Ptr → Ptr) (i : Nat)
    (h : i ≤ l.length) :
    (l.take i).map f = (List.range i).map (fun j => f (l.getD j 0)) := by
  apply List.ext_getElem
  · simp
    omega
  · intro k h1 h2
    simp only [List.getElem_map, List.getElem_take, List.getElem_range]
    congr 1
    rw [List.getD_eq_getElem]

theorem forall_mem_take_of_getD {l : List Ptr} {n : Nat}
    {P : Ptr → Prop} (h : ∀ k, k < n → P (l.getD k 0))
    (hn : n ≤ l.length) : ∀ x ∈ l.take n, P x := by
  intro x hx
  obtain ⟨k, hk, hkx⟩ := List.getElem_of_mem hx
  have hk' : k < n := by
    have := List.length_take n l
    omega
  have hx' : x = l.getD k 0 := by
    rw [List.getD_eq_getElem _ _ (by omega)]
    rw [← hkx]
    simp [List.getElem_take]
  rw [hx']
  exact h k hk'

theorem getD_map (l : List Ptr) (f : Ptr → Ptr) (i : Nat)
    (h : i < l.length) : (l.map f).getD i 0 = f (l.getD i 0) := by
  rw [List.getD_eq_getElem _ _ (by simpa using h),
    List.getD_eq_getElem _ _ h]
  simp

/-! ## C7 -/

/-- C7: `array_clone` is all-or-nothing.  When every copy succeeds it
returns a fresh well-formed array of the same length and capacity whose
slot `i` holds exactly `cpy` of the source's slot `i` (and, whenever the
copy capability produces compare-equal elements, `array_is_equal` holds
between source and clone).  When the first failing copy is at index `i`,
it returns `NULL` and the delete log is precisely the `i` copies made
before the failure — the partial clone is released.  The source array is
a value that `array_clone` only reads, so it is unchanged in both
cases. -/
theorem c7_clone_all_or_nothing (a : ArrayC) (cpy : Ptr → Ptr)
    (cmp : Ptr → Ptr → Int) (hwf : a.Wf) (hpos : 0 < a.cap) :
    ((∀ i, i < a.len → cpy (a.buf.getD i 0) ≠ 0) →
      ∃ c, array_clone a cpy true = (some c, []) ∧
        c.Wf ∧ c.len = a.len ∧ c.cap = a.cap ∧
        (∀ i, i < a.len → c.buf.getD i 0 = cpy (a.buf.getD i 0)) ∧
        ((∀ x, cmp x (cpy x) = 0) → array_is_equal cmp a c = true)) ∧
    (∀ i, i < a.len → cpy (a.buf.getD i 0) = 0 →
      (∀ j, j < i → cpy (a.buf.getD j 0) ≠ 0) →
      array_clone a cpy true =
        (none, (List.range i).map (fun j => cpy (a.buf.getD j 0)))) := by
  have hlenle : a.len ≤ a.buf.length := by rw [hwf.1]; exact hwf.2
  have htakelen : (a.buf.take a.len).length = a.len := by
    simp only [List.length_take]
    omega
  constructor
  · -- all copies succeed
    intro hok
    have hmem : ∀ x ∈ a.buf.take a.len, cpy x ≠ 0 :=
      forall_mem_take_of_getD hok hlenle
    unfold array_clone
    rw [if_neg (not_not_intro ⟨hpos, rfl⟩)]
    rw [cloneCopies_ok hmem]
    refine ⟨_, rfl, ?_, rfl, rfl, ?_, ?_⟩
    · constructor
      · have h2 := hwf.2
        simp only [List.length_append, List.length_map, htakelen,
          List.length_replicate]
        omega
      · simp only []
        exact hwf.2
    · intro i hi
      simp only []
      rw [List.getD_append _ _ _ _ (by
        simp only [List.length_map, htakelen]
        omega)]
      rw [getD_map _ _ _ (by rw [htakelen]; omega)]
      rw [getD_take_lt _ _ _ hi]
    · intro hcoh
      unfold array_is_equal
      rw [if_neg (by simp)]
      rw [List.all_eq_true]
      intro idx hidx
      have hidx' : idx < a.len := List.mem_range.mp hidx
      simp only [beq_iff_eq]
      rw [List.getD_append _ _ _ _ (by
        simp only [List.length_map, htakelen]
        omega)]
      rw [getD_map _ _ _ (by rw [htakelen]; omega)]
      rw [getD_take_lt _ _ _ hidx']
      exact hcoh _
  · -- the first failing copy aborts the clone and releases the copies
    intro i hi hzero hbefore
    have hiL : i < (a.buf.take a.len).length := by omega
    have hdecomp : a.buf.take a.len =
        (a.buf.take a.len).take i ++
          (a.buf.take a.len)[i] :: (a.buf.take a.len).drop (i + 1) := by
      rw [← List.drop_eq_getElem_cons hiL]
      rw [List.take_append_drop]
    have hgetI : (a.buf.take a.len)[i] = a.buf.getD i 0 := by
      rw [List.getD_eq_getElem _ _ (by omega)]
      simp [List.getElem_take]
    have htt : (a.buf.take a.len).take i = a.buf.take i := by
      rw [List.take_take]
      congr 1
      omega
    have hys : ∀ y ∈ (a.buf.take a.len).take i, cpy y ≠ 0 := by
      rw [htt]
      exact forall_mem_take_of_getD hbefore (by omega)
    unfold array_clone
    rw [if_neg (not_not_intro ⟨hpos, rfl⟩)]
    rw [hdecomp, cloneCopies_error _ hys (by rw [hgetI]; exact hzero)]
    rw [htt, map_take_eq_range_map _ _ _ (by omega)]

/-- C7 witness: cloning `[1, 2, 5, 8]` with the copy capability
`x ↦ x + 100` succeeds slot-for-slot; with a capability failing on `5`
the clone aborts and the two copies already made are released. -/
theorem c7_witness :
    (∃ c, array_clone exArr4 (fun x => x + 100) true = (some c, []) ∧
      c.Wf ∧ c.len = exArr4.len ∧ c.cap = exArr4.cap ∧
      (∀ i, i < exArr4.len →
        c.buf.getD i 0 = exArr4.buf.getD i 0 + 100) ∧
      array_is_equal (fun x y => (x : Int) + 100 - y) exArr4 c = true) ∧
    array_clone exArr4 (fun x => if x = 5 then 0 else x + 100) true =
      (none, [101, 102]) := by
  constructor
  · obtain ⟨c, h1, h2, h3, h4, h5, h6⟩ :=
      (c7_clone_all_or_nothing exArr4 (fun x => x + 100)
        (fun x y => (x : Int) + 100 - y) (by decide)
        (by decide)).1 (by decide)
    exact ⟨c, h1, h2, h3, h4, h5, h6 (by intro x; push_cast; ring)⟩
  · have h := (c7_clone_all_or_nothing exArr4
      (fun x => if x = 5 then 0 else x + 100)
      (fun x y => (x : Int) - y) (by decide) (by decide)).2 2
      (by decide) (by decide) (by decide)
    rw [h]
    decide

/-! ## C2 -/

/-- The array is ordered by the compare capability on its live prefix:
the spec's precondition for `SortedSearch`. -/
def SortedByCmp (cmp : Ptr → Ptr → Int) (buf : List Ptr) (len : Nat) :
    Prop :=
  ∀ i j, i ≤ j → j < len → cmp (buf.getD i 0) (buf.getD j 0) ≤ 0

theorem sorted_search_go_sound (cmp : Ptr → Ptr → Int) (buf : List Ptr)
    (key : Ptr) :
    ∀ (n low high i : Nat), high - low ≤ n →
      sorted_search_go cmp buf key low high = some i →
      low ≤ i ∧ i < high ∧ cmp (buf.getD i 0) key = 0 := by
  intro n
  induction n with
  | zero =>
    intro low high i hn h
    unfold sorted_search_go at h
    rw [dif_neg (by omega)] at h
    simp at h
  | succ n ih =>
    intro low high i hn h
    unfold sorted_search_go at h
    by_cases hlh : low < high
    · rw [dif_pos hlh] at h
      by_cases h1 : 0 < cmp (buf.getD (low + (high - low) / 2) 0) key
      · rw [if_pos h1] at h
        have hr := ih low (low + (high - low) / 2) i (by omega) h
        exact ⟨hr.1, by omega, hr.2.2⟩
      · rw [if_neg h1] at h
        by_cases h2 : cmp (buf.getD (low + (high - low) / 2) 0) key < 0
        · rw [if_pos h2] at h
          have hr := ih (low + (high - low) / 2 + 1) high i (by omega) h
          exact ⟨by omega, hr.2.1, hr.2.2⟩
        · rw [if_neg h2] at h
          have hi : i = low + (high - low) / 2 := (Option.some.inj h).symm
          subst hi
          exact ⟨by omega, by omega, by omega⟩
    · rw [dif_neg hlh] at h
      simp at h

theorem sorted_search_go_complete (cmp : Ptr → Ptr → Int)
    (buf : List Ptr) (key : Ptr) (len : Nat)
    (hflip : ∀ x y, cmp x y ≤ 0 ↔ 0 ≤ cmp y x)
    (htrans : ∀ x y z, cmp x y ≤ 0 → cmp y z ≤ 0 → cmp x z ≤ 0)
    (hsorted : SortedByCmp cmp buf len) :
    ∀ (n low high : Nat), high - low ≤ n → high ≤ len →
      (∃ i, low ≤ i ∧ i < high ∧ cmp (buf.getD i 0) key = 0) →
      ∃ i, sorted_search_go cmp buf key low high = some i := by
  intro n
  induction n with
  | zero =>
    intro low high hn hhigh hex
    obtain ⟨i, hi1, hi2, -⟩ := hex
    omega
  | succ n ih =>
    intro low high hn hhigh hex
    obtain ⟨i, hi1, hi2, hikey⟩ := hex
    have hlh : low < high := by omega
    unfold sorted_search_go
    rw [dif_pos hlh]
    by_cases h1 : 0 < cmp (buf.getD (low + (high - low) / 2) 0) key
    · rw [if_pos h1]
      -- the witness must lie strictly left of the midpoint
      have himid : i < low + (high - low) / 2 := by
        by_contra hge
        push_neg at hge
        have hle := hsorted (low + (high - low) / 2) i hge (by omega)
        have := htrans (buf.getD (low + (high - low) / 2) 0)
          (buf.getD i 0) key hle (by omega)
        omega
      exact ih low (low + (high - low) / 2) (by omega) (by omega)
        ⟨i, hi1, himid, hikey⟩
    · rw [if_neg h1]
      by_cases h2 : cmp (buf.getD (low + (high - low) / 2) 0) key < 0
      · rw [if_pos h2]
        -- the witness must lie strictly right of the midpoint
        have himid : low + (high - low) / 2 < i := by
          by_contra hge
          push_neg at hge
          have hle := hsorted i (low + (high - low) / 2) hge (by omega)
          have hkey' : cmp key (buf.getD i 0) ≤ 0 := by
            have := (hflip key (buf.getD i 0)).mpr (by omega)
            exact this
          have := htrans key (buf.getD i 0)
            (buf.getD (low + (high - low) / 2) 0) hkey' hle
          have := (hflip key (buf.getD (low + (high - low) / 2) 0)).mp this
          omega
        exact ih (low + (high - low) / 2 + 1) high (by omega) hhigh
          ⟨i, by omega, hi2, hikey⟩
      · rw [if_neg h2]
        exact ⟨low + (high - low) / 2, rfl⟩

/-- C2 (spec-modelled): for an array sorted by the compare capability
(with `cmp` consistent with a total order: antisymmetric sign flip and
transitivity of `≤ 0`), the binary search `array_sorted_search` —
midpoint `mid = low + (high - low) / 2`, descending left on positive
comparison, right on negative — returns an in-range index whose element
compares equal to the key whenever one exists, and the not-found result
otherwise. -/
theorem c2_sorted_search_correct (cmp : Ptr → Ptr → Int) (a : ArrayC)
    (p_key : Ptr)
    (hflip : ∀ x y, cmp x y ≤ 0 ↔ 0 ≤ cmp y x)
    (htrans : ∀ x y z, cmp x y ≤ 0 → cmp y z ≤ 0 → cmp x z ≤ 0)
    (hsorted : SortedByCmp cmp a.buf a.len) :
    ((∃ i, i < a.len ∧ cmp (a.buf.getD i 0) p_key = 0) →
      ∃ i, array_sorted_search cmp a p_key = (ARRAY_SUCCESS, some i) ∧
        i < a.len ∧ cmp (a.buf.getD i 0) p_key = 0) ∧
    ((∀ i, i < a.len → cmp (a.buf.getD i 0) p_key ≠ 0) →
      array_sorted_search cmp a p_key = (ARRAY_NOT_FOUND, none)) := by
  constructor
  · intro hex
    obtain ⟨i0, hi0, hkey0⟩ := hex
    obtain ⟨i, hgo⟩ := sorted_search_go_complete cmp a.buf p_key a.len
      hflip htrans hsorted a.len 0 a.len (by omega) (le_refl _)
      ⟨i0, Nat.zero_le _, hi0, hkey0⟩
    have hs := sorted_search_go_sound cmp a.buf p_key a.len 0 a.len i
      (by omega) hgo
    refine ⟨i, ?_, hs.2.1, hs.2.2⟩
    unfold array_sorted_search
    rw [hgo]
  · intro hnone
    cases hgo : sorted_search_go cmp a.buf p_key 0 a.len with
    | none =>
      unfold array_sorted_search
      rw [hgo]
    | some i =>
      have hs := sorted_search_go_sound cmp a.buf p_key a.len 0 a.len i
        (by omega) hgo
      exact absurd hs.2.2 (hnone i hs.2.1)

/-- The integer comparison capability used by the test suite
(`compare_ints`). -/
def cmpInt (x y : Ptr) : Int := (x : Int) - (y : Int)

/-- C2 witness: on the sorted concrete array `[1, 2, 5, 8]`,
`SortedSearch` finds key 8 at an index holding 8, and reports not-found
for key 99. -/
theorem c2_witness :
    (∃ i, array_sorted_search cmpInt exArr4 8 = (ARRAY_SUCCESS, some i) ∧
      i < exArr4.len ∧ cmpInt (exArr4.buf.getD i 0) 8 = 0) ∧
    array_sorted_search cmpInt exArr4 99 = (ARRAY_NOT_FOUND, none) := by
  have hflip : ∀ x y, cmpInt x y ≤ 0 ↔ 0 ≤ cmpInt y x := by
    intro x y
    unfold cmpInt
    omega
  have htrans : ∀ x y z, cmpInt x y ≤ 0 → cmpInt y z ≤ 0 →
      cmpInt x z ≤ 0 := by
    intro x y z
    unfold cmpInt
    omega
  have hsorted : SortedByCmp cmpInt exArr4.buf exArr4.len := by
    intro i j hij hj
    have hj4 : j < 4 := hj
    interval_cases j <;> interval_cases i <;> decide
  constructor
  · exact (c2_sorted_search_correct cmpInt exArr4 8 hflip htrans
      hsorted).1 ⟨3, by decide, by decide⟩
  · exact (c2_sorted_search_correct cmpInt exArr4 99 hflip htrans
      hsorted).2 (by
        intro i hi
        have hi4 : i < 4 := hi
        interval_cases i <;> decide)
